import Mathlib

/-!
# Shovel factory: storages, supplier, assembler, dealer controller, thread pool

A shallow embedding of `сборкаЛопат2.cpp`.

* Objects held through pointers (`Detail*`, `Shovel*`) are modelled by their values.
  `Handle` and `Blade` add no field to `Detail`, so all three are `Detail` here.
* `std::queue` and `std::vector` are lists, front of the container = head of the list.
* `int` is `Int` (wrapped to 32 bits by `toInt32` where the source narrows or
  increments), `size_t` is `Nat` reduced modulo `2^64` by `toSizeT`.
* A call that waits on a condition variable whose predicate is false does not
  return: such a call yields `none`. In a sequence of completed operations a
  call that does not return changes nothing and hands out nothing.
* Mutexes, notifications, sleeping and the log file have no effect on the data
  and are left out.
-/

namespace ShovelFactory

/-! ## Machine integers -/

/-- Conversion of an `int` to `size_t` (64 bit): reduction modulo `2^64`. -/
def toSizeT (x : Int) : Nat := (x % 18446744073709551616).toNat

/-- Conversion of an integer to `int` (32 bit two's complement): the value
congruent modulo `2^32` that lies in `[-2^31, 2^31)`. -/
def toInt32 (x : Int) : Int := (x + 2147483648) % 4294967296 - 2147483648

/-- Largest `int`. -/
def INT_MAX : Int := 2147483647

/-! ## Domain objects (source lines 17-48) -/

/-- Class `Detail`: a part carrying an id. -/
structure Detail where
  m_id : Int
deriving DecidableEq

/-- Class `Shovel`: an id, a handle and a blade. -/
structure Shovel where
  m_id : Int
  m_handle : Detail
  m_blade : Detail
deriving DecidableEq

/-! ## DetailStorage (source lines 51-84) -/

/-- Class `DetailStorage`: the capacity and the `std::queue` of details
(head of the list = front of the queue). -/
structure DetailStorage where
  m_maxCapacity : Int
  m_details : List Detail
deriving DecidableEq

namespace DetailStorage

/-- Constructor: only the capacity is set, the queue starts empty. -/
def new (maxCapacity : Int) : DetailStorage := ⟨maxCapacity, []⟩

/-- The `isFull` query: `m_details.size() >= m_maxCapacity`, compared as `size_t`. -/
def isFull (s : DetailStorage) : Bool := decide (toSizeT s.m_maxCapacity ≤ s.m_details.length)

/-- The `isEmpty` query: `m_details.empty()`. -/
def isEmpty (s : DetailStorage) : Bool := s.m_details.isEmpty

/-- Method `addDetail`: `m_details.push(detail)`; the capacity is not consulted. -/
def addDetail (s : DetailStorage) (d : Detail) : DetailStorage :=
  { s with m_details := s.m_details ++ [d] }

/-- Method `getDetail`: waits until the queue is non-empty, then returns
`front()` and pops it. `none`: the wait does not return. -/
def getDetail (s : DetailStorage) : Option (Detail × DetailStorage) :=
  match s.m_details with
  | [] => none
  | d :: rest => some (d, { s with m_details := rest })

end DetailStorage

/-! ## ShovelStorage (source lines 87-124) -/

/-- Class `ShovelStorage`: the capacity and the `std::vector` of shovels
(last element of the list = `back()` of the vector). -/
structure ShovelStorage where
  m_maxCapacity : Int
  m_shovels : List Shovel
deriving DecidableEq

namespace ShovelStorage

/-- Constructor: only the capacity is set, the vector starts empty. -/
def new (maxCapacity : Int) : ShovelStorage := ⟨maxCapacity, []⟩

/-- The `isFull` query: `m_shovels.size() >= m_maxCapacity`, compared as `size_t`. -/
def isFull (s : ShovelStorage) : Bool := decide (toSizeT s.m_maxCapacity ≤ s.m_shovels.length)

/-- The `isEmpty` query: `m_shovels.empty()`. -/
def isEmpty (s : ShovelStorage) : Bool := s.m_shovels.isEmpty

/-- Method `addShovel`: `m_shovels.push_back(shovel)`; the capacity is not consulted. -/
def addShovel (s : ShovelStorage) (x : Shovel) : ShovelStorage :=
  { s with m_shovels := s.m_shovels ++ [x] }

/-- Method `getShovel`: waits until the vector is non-empty, then returns
`back()` and does `pop_back()`. `none`: the wait does not return. -/
def getShovel (s : ShovelStorage) : Option (Shovel × ShovelStorage) :=
  match s.m_shovels.getLast? with
  | none => none
  | some x => some (x, { s with m_shovels := s.m_shovels.dropLast })

/-- Method `getShovels`: a copy of the vector. -/
def getShovels (s : ShovelStorage) : List Shovel := s.m_shovels

end ShovelStorage

/-! ## Shared state of the factory -/

/-- The objects the actors of `main` share: the three storages and the three
function-local `static int` counters (each initialised to 1 in the source). -/
structure Factory where
  shovels : ShovelStorage
  handles : DetailStorage
  blades : DetailStorage
  /-- The counter `static int nextId` of `ShovelStorageController::getNextShovelId`. -/
  controllerNextId : Int
  /-- The counter `static int nextId` of `ShovelAssembler::getNextShovelId`. -/
  assemblerNextId : Int
  /-- The counter `static int nextDetailId` of `DetailSupplier::createDetail`. -/
  nextDetailId : Int
deriving DecidableEq

/-- Post-increment of a `static int` counter: the old value is returned, the
counter becomes the 32-bit successor. -/
def postIncrement (c : Int) : Int × Int := (c, toInt32 (c + 1))

/-! ## ShovelStorageController (source lines 127-193) -/

/-- Class `ShovelStorageController`: the only field that the logic reads is
the target level `m_maxShovels`. -/
structure ShovelStorageController where
  m_maxShovels : Int
deriving DecidableEq

namespace ShovelStorageController

/-- Method `getNextShovelId` of the controller, on its own static counter. -/
def getNextShovelId (w : Factory) : Int × Factory :=
  ((postIncrement w.controllerNextId).1,
    { w with controllerNextId := (postIncrement w.controllerNextId).2 })

/-- Method `createShovel`: a handle from the handle storage, a blade from the
blade storage (each through `getDetail`, which may not return), then a new
shovel with the next controller id. The calls are written
`m_handleStorage->getDetail<Handle*>()` in the source; the only `getDetail` of
`DetailStorage` is the one above, and the cast does not change the detail. -/
def createShovel (w : Factory) : Option (Shovel × Factory) :=
  match w.handles.getDetail with
  | none => none
  | some (handle, hs) =>
    match w.blades.getDetail with
    | none => none
    | some (blade, bs) =>
      let w1 : Factory := { w with handles := hs, blades := bs }
      let r := getNextShovelId w1
      some (⟨r.1, handle, blade⟩, r.2)

/-- The value `int numShovelsToAdd = m_maxShovels - m_storage->getShovels().size()`:
the difference is taken in `size_t` (modulo `2^64`) and then narrowed to `int`. -/
def numShovelsToAdd (c : ShovelStorageController) (st : ShovelStorage) : Int :=
  toInt32 (((toSizeT c.m_maxShovels : Int) - (st.getShovels.length : Int)) % 18446744073709551616)

/-- The loop `for (int i = 0; i < numShovelsToAdd; i++)` with `k` iterations
left: each creates a shovel and adds it to the shovel storage. Returns the
shovels produced, in order. `none`: some `createShovel` does not return. -/
def produce : Nat → Factory → Option (List Shovel × Factory)
  | 0, w => some ([], w)
  | k + 1, w =>
    match createShovel w with
    | none => none
    | some (x, w1) =>
      match produce k { w1 with shovels := w1.shovels.addShovel x } with
      | none => none
      | some (made, w2) => some (x :: made, w2)

/-- One iteration of the loop of `start`: wait for a non-empty storage, take
a shovel (sold), and if the storage then reports full, produce
`numShovelsToAdd` shovels. Returns the sold shovel, the produced shovels and
the new state. `none`: the iteration does not complete. -/
def step (c : ShovelStorageController) (w : Factory) : Option (Shovel × List Shovel × Factory) :=
  if w.shovels.isEmpty then none
  else
    match w.shovels.getShovel with
    | none => none
    | some (sold, st) =>
      let w1 : Factory := { w with shovels := st }
      if st.isFull then
        match produce (numShovelsToAdd c st).toNat w1 with
        | none => none
        | some (made, w2) => some (sold, made, w2)
      else some (sold, [], w1)

end ShovelStorageController

/-! ## DetailSupplier (source lines 196-222) -/

namespace DetailSupplier

/-- Method `createDetail`: a new detail with id `nextDetailId++`. -/
def createDetail (nextDetailId : Int) : Detail × Int :=
  (⟨(postIncrement nextDetailId).1⟩, (postIncrement nextDetailId).2)

/-- One iteration of the loop of `start` (after the sleep): nothing when the
storage reports full, otherwise a new detail is created and added. -/
def step (st : DetailStorage) (nextDetailId : Int) : DetailStorage × Int :=
  if st.isFull then (st, nextDetailId)
  else ((st.addDetail (createDetail nextDetailId).1), (createDetail nextDetailId).2)

end DetailSupplier

/-! ## ShovelAssembler (source lines 225-260) -/

namespace ShovelAssembler

/-- Method `getNextShovelId` of the assembler, on its own static counter. -/
def getNextShovelId (w : Factory) : Int × Factory :=
  ((postIncrement w.assemblerNextId).1,
    { w with assemblerNextId := (postIncrement w.assemblerNextId).2 })

/-- One iteration of the loop of `start`: a handle, a blade, a new shovel
with the next assembler id, added to the shovel storage. Returns the shovel.
`none`: one of the two `getDetail` calls does not return. -/
def step (w : Factory) : Option (Shovel × Factory) :=
  match w.handles.getDetail with
  | none => none
  | some (handle, hs) =>
    match w.blades.getDetail with
    | none => none
    | some (blade, bs) =>
      let w1 : Factory := { w with handles := hs, blades := bs }
      let r := getNextShovelId w1
      let x : Shovel := ⟨r.1, handle, blade⟩
      some (x, { r.2 with shovels := r.2.shovels.addShovel x })

end ShovelAssembler

/-! ## ThreadPool (source lines 263-311) -/

/-- Class `ThreadPool`: the task queue and the stop flag (the worker threads
themselves are not part of the data). -/
structure ThreadPool (Task : Type) where
  m_tasks : List Task
  m_stop : Bool
deriving DecidableEq

/-- The errors a submission could report. -/
inductive PoolError where
  | PoolClosed
deriving DecidableEq

namespace ThreadPool

variable {Task : Type}

/-- Constructor: `m_stop(false)`, empty task queue. -/
def new : ThreadPool Task := ⟨[], false⟩

/-- Destructor, the part that changes the data: `m_stop = true`. -/
def shutdown (p : ThreadPool Task) : ThreadPool Task := { p with m_stop := true }

/-- Method `enqueue`: `m_tasks.emplace(...)` under the lock; the bound
callable is the task `t`. The source returns `void`, has no failing path and
never reads `m_stop`, so the result is always `ok`. -/
def enqueue (p : ThreadPool Task) (t : Task) : Except PoolError (ThreadPool Task) :=
  Except.ok { p with m_tasks := p.m_tasks ++ [t] }

/-- One round of a worker thread: `none` when the wait does not return (not
stopped, no task); `some (none, p)` when the worker exits (stopped and no
task); otherwise the front task is popped and handed out to be run. -/
def workerStep (p : ThreadPool Task) : Option (Option Task × ThreadPool Task) :=
  match p.m_tasks with
  | [] => if p.m_stop then some (none, p) else none
  | t :: rest => some (some t, { p with m_tasks := rest })

end ThreadPool

/-! ## Sequences of completed operations -/

/-- An operation on a `DetailStorage`: `addDetail d` or `getDetail`. -/
inductive DetailOp where
  | add (d : Detail)
  | get
deriving DecidableEq

/-- An operation on a `ShovelStorage`: `addShovel x` or `getShovel`. -/
inductive ShovelOp where
  | add (x : Shovel)
  | get
deriving DecidableEq

/-- The details handed to `addDetail` by a sequence of operations, in order. -/
def DetailOp.puts : List DetailOp → List Detail
  | [] => []
  | DetailOp.add d :: ops => d :: DetailOp.puts ops
  | DetailOp.get :: ops => DetailOp.puts ops

/-- The shovels handed to `addShovel` by a sequence of operations, in order. -/
def ShovelOp.puts : List ShovelOp → List Shovel
  | [] => []
  | ShovelOp.add x :: ops => x :: ShovelOp.puts ops
  | ShovelOp.get :: ops => ShovelOp.puts ops

namespace DetailStorage

/-- One operation: the new storage and the detail returned, if any. A
`getDetail` that does not return leaves the storage as it is. -/
def apply (s : DetailStorage) : DetailOp → DetailStorage × Option Detail
  | DetailOp.add d => (s.addDetail d, none)
  | DetailOp.get =>
    match s.getDetail with
    | none => (s, none)
    | some (d, s1) => (s1, some d)

/-- A sequence of operations: the final storage and the details returned by
the `getDetail` calls, in order. -/
def run (s : DetailStorage) : List DetailOp → DetailStorage × List Detail
  | [] => (s, [])
  | op :: ops =>
    ((run (s.apply op).1 ops).1, (s.apply op).2.toList ++ (run (s.apply op).1 ops).2)

/-- Every `addDetail` of the sequence is applied to a storage whose `isFull`
is false. -/
def putsFindRoom (s : DetailStorage) : List DetailOp → Bool
  | [] => true
  | DetailOp.add d :: ops => !s.isFull && putsFindRoom (s.addDetail d) ops
  | DetailOp.get :: ops => putsFindRoom (s.apply DetailOp.get).1 ops

end DetailStorage

namespace ShovelStorage

/-- One operation: the new storage and the shovel returned, if any. A
`getShovel` that does not return leaves the storage as it is. -/
def apply (s : ShovelStorage) : ShovelOp → ShovelStorage × Option Shovel
  | ShovelOp.add x => (s.addShovel x, none)
  | ShovelOp.get =>
    match s.getShovel with
    | none => (s, none)
    | some (x, s1) => (s1, some x)

/-- A sequence of operations: the final storage and the shovels returned by
the `getShovel` calls, in order. -/
def run (s : ShovelStorage) : List ShovelOp → ShovelStorage × List Shovel
  | [] => (s, [])
  | op :: ops =>
    ((run (s.apply op).1 ops).1, (s.apply op).2.toList ++ (run (s.apply op).1 ops).2)

/-- Every `addShovel` of the sequence is applied to a storage whose `isFull`
is false. -/
def putsFindRoom (s : ShovelStorage) : List ShovelOp → Bool
  | [] => true
  | ShovelOp.add x :: ops => !s.isFull && putsFindRoom (s.addShovel x) ops
  | ShovelOp.get :: ops => putsFindRoom (s.apply ShovelOp.get).1 ops

end ShovelStorage

/-- An event on a detail storage fed by suppliers: one iteration of
`DetailSupplier::start`, or one `getDetail` call by a consumer. -/
inductive SupplyEvent where
  | supply
  | get
deriving DecidableEq

/-- One event on a storage and the detail id counter. -/
def SupplyEvent.apply (s : DetailStorage) (nextDetailId : Int) : SupplyEvent → DetailStorage × Int
  | SupplyEvent.supply => DetailSupplier.step s nextDetailId
  | SupplyEvent.get => ((s.apply DetailOp.get).1, nextDetailId)

/-- A sequence of events on a storage and the detail id counter. -/
def SupplyEvent.run (s : DetailStorage) (nextDetailId : Int) : List SupplyEvent → DetailStorage × Int
  | [] => (s, nextDetailId)
  | e :: es =>
    SupplyEvent.run (SupplyEvent.apply s nextDetailId e).1 (SupplyEvent.apply s nextDetailId e).2 es

/-- Who creates a shovel: an assembler (`ShovelAssembler::start`) or a
controller (`ShovelStorageController::createShovel`). -/
inductive Creator where
  | assembler
  | controller
deriving DecidableEq

/-- One creation: the shovel made, if the call returns, and the new state. With
the controller the shovel is the result of `createShovel`; with the assembler it
is also added to the shovel storage, as in its loop body. -/
def Creator.create (w : Factory) : Creator → Option (Shovel × Factory)
  | Creator.assembler => ShovelAssembler.step w
  | Creator.controller => ShovelStorageController.createShovel w

/-- A sequence of creations: the shovels made, each with its creator, in
creation order. A creation that does not return makes nothing. -/
def Creator.run (w : Factory) : List Creator → List (Creator × Shovel)
  | [] => []
  | c :: cs =>
    match Creator.create w c with
    | none => Creator.run w cs
    | some (x, w1) => (c, x) :: Creator.run w1 cs

/-- The ids of the shovels that creator `c` made, in creation order. -/
def Creator.idsOf (c : Creator) (made : List (Creator × Shovel)) : List Int :=
  (made.filter (fun p => decide (p.1 = c))).map (fun p => p.2.m_id)

/-- The details made by `k` successive `createDetail` calls from counter value
`c`, in creation order, and the counter afterwards. -/
def DetailSupplier.createMany : Nat → Int → List Detail × Int
  | 0, c => ([], c)
  | k + 1, c =>
    ((createDetail c).1 :: (createMany k (createDetail c).2).1, (createMany k (createDetail c).2).2)

/-! ## Basic facts about the integer conversions -/

theorem toSizeT_le_self (x : Int) (h : 0 ≤ x) : (toSizeT x : Int) ≤ x := by
  unfold toSizeT
  omega

theorem toSizeT_eq_self (x : Int) (h0 : 0 ≤ x) (h1 : x ≤ INT_MAX) : (toSizeT x : Int) = x := by
  unfold toSizeT INT_MAX at *
  omega

theorem toInt32_eq_self (x : Int) (h0 : -2147483648 ≤ x) (h1 : x ≤ INT_MAX) : toInt32 x = x := by
  unfold toInt32 INT_MAX at *
  omega

/-! ## Storages: capacity is never changed, sizes -/

theorem DetailStorage.detail_apply_capacity (s : DetailStorage) (op : DetailOp) :
    (s.apply op).1.m_maxCapacity = s.m_maxCapacity := by
  cases op with
  | add d => rfl
  | get =>
    obtain ⟨C, l⟩ := s
    cases l <;> rfl

theorem ShovelStorage.shovel_apply_capacity (s : ShovelStorage) (op : ShovelOp) :
    (s.apply op).1.m_maxCapacity = s.m_maxCapacity := by
  cases op with
  | add x => rfl
  | get =>
    obtain ⟨C, l⟩ := s
    simp only [ShovelStorage.apply, ShovelStorage.getShovel]
    cases l.getLast? <;> rfl

theorem DetailStorage.detail_apply_get_length_le (s : DetailStorage) :
    (s.apply DetailOp.get).1.m_details.length ≤ s.m_details.length := by
  obtain ⟨C, l⟩ := s
  cases l with
  | nil => simp [DetailStorage.apply, DetailStorage.getDetail]
  | cons d rest => simp [DetailStorage.apply, DetailStorage.getDetail]

theorem ShovelStorage.getShovel_append (C : Int) (l : List Shovel) (x : Shovel) :
    ShovelStorage.getShovel ⟨C, l ++ [x]⟩ = some (x, ⟨C, l⟩) := by
  simp [ShovelStorage.getShovel]

theorem ShovelStorage.getShovel_nil (C : Int) :
    ShovelStorage.getShovel ⟨C, []⟩ = none := by
  simp [ShovelStorage.getShovel]

theorem ShovelStorage.shovel_apply_get_length_le (s : ShovelStorage) :
    (s.apply ShovelOp.get).1.m_shovels.length ≤ s.m_shovels.length := by
  obtain ⟨C, l⟩ := s
  rcases List.eq_nil_or_concat l with h | ⟨l1, x, h⟩
  · subst h
    simp [ShovelStorage.apply, ShovelStorage.getShovel_nil]
  · subst h
    simp [ShovelStorage.apply, ShovelStorage.getShovel_append]

theorem DetailStorage.detail_not_full_room (s : DetailStorage) (h0 : 0 ≤ s.m_maxCapacity)
    (h : s.isFull = false) : ((s.m_details.length : Int) + 1) ≤ s.m_maxCapacity := by
  have h1 := toSizeT_le_self s.m_maxCapacity h0
  simp only [DetailStorage.isFull, decide_eq_false_iff_not, not_le] at h
  omega

theorem ShovelStorage.shovel_not_full_room (s : ShovelStorage) (h0 : 0 ≤ s.m_maxCapacity)
    (h : s.isFull = false) : ((s.m_shovels.length : Int) + 1) ≤ s.m_maxCapacity := by
  have h1 := toSizeT_le_self s.m_maxCapacity h0
  simp only [ShovelStorage.isFull, decide_eq_false_iff_not, not_le] at h
  omega

theorem DetailStorage.detail_run_room_size (ops : List DetailOp) :
    ∀ (s : DetailStorage) (k : Nat), 0 ≤ s.m_maxCapacity →
      (s.m_details.length : Int) ≤ s.m_maxCapacity → s.putsFindRoom ops = true →
      (((s.run (ops.take k)).1.m_details.length : Int) ≤ s.m_maxCapacity) := by
  induction ops with
  | nil => intro s k _ hs _; simpa [DetailStorage.run] using hs
  | cons op ops ih =>
    intro s k h0 hs hroom
    cases k with
    | zero => simpa [DetailStorage.run] using hs
    | succ k =>
      simp only [List.take_succ_cons, DetailStorage.run]
      have hcap := DetailStorage.detail_apply_capacity s op
      rw [← hcap]
      apply ih
      · rw [hcap]; exact h0
      · rw [hcap]
        cases op with
        | add d =>
          simp only [DetailStorage.putsFindRoom, Bool.and_eq_true, Bool.not_eq_true'] at hroom
          have := DetailStorage.detail_not_full_room s h0 hroom.1
          simp only [DetailStorage.apply, DetailStorage.addDetail, List.length_append,
            List.length_singleton]
          push_cast
          omega
        | get =>
          have := DetailStorage.detail_apply_get_length_le s
          omega
      · cases op with
        | add d =>
          simp only [DetailStorage.putsFindRoom, Bool.and_eq_true] at hroom
          exact hroom.2
        | get => simpa [DetailStorage.putsFindRoom] using hroom

theorem ShovelStorage.shovel_run_room_size (ops : List ShovelOp) :
    ∀ (s : ShovelStorage) (k : Nat), 0 ≤ s.m_maxCapacity →
      (s.m_shovels.length : Int) ≤ s.m_maxCapacity → s.putsFindRoom ops = true →
      (((s.run (ops.take k)).1.m_shovels.length : Int) ≤ s.m_maxCapacity) := by
  induction ops with
  | nil => intro s k _ hs _; simpa [ShovelStorage.run] using hs
  | cons op ops ih =>
    intro s k h0 hs hroom
    cases k with
    | zero => simpa [ShovelStorage.run] using hs
    | succ k =>
      simp only [List.take_succ_cons, ShovelStorage.run]
      have hcap := ShovelStorage.shovel_apply_capacity s op
      rw [← hcap]
      apply ih
      · rw [hcap]; exact h0
      · rw [hcap]
        cases op with
        | add x =>
          simp only [ShovelStorage.putsFindRoom, Bool.and_eq_true, Bool.not_eq_true'] at hroom
          have := ShovelStorage.shovel_not_full_room s h0 hroom.1
          simp only [ShovelStorage.apply, ShovelStorage.addShovel, List.length_append,
            List.length_singleton]
          push_cast
          omega
        | get =>
          have := ShovelStorage.shovel_apply_get_length_le s
          omega
      · cases op with
        | add x =>
          simp only [ShovelStorage.putsFindRoom, Bool.and_eq_true] at hroom
          exact hroom.2
        | get => simpa [ShovelStorage.putsFindRoom] using hroom

/-! ## Storages: order and conservation of the items -/

theorem DetailStorage.run_order (ops : List DetailOp) :
    ∀ s : DetailStorage,
      (s.run ops).2 ++ (s.run ops).1.m_details = s.m_details ++ DetailOp.puts ops := by
  induction ops with
  | nil => intro s; simp [DetailStorage.run, DetailOp.puts]
  | cons op ops ih =>
    intro s
    cases op with
    | add d =>
      simp only [DetailStorage.run, DetailStorage.apply, DetailOp.puts, Option.toList,
        List.nil_append]
      rw [ih]
      simp [DetailStorage.addDetail]
    | get =>
      obtain ⟨C, l⟩ := s
      cases l with
      | nil =>
        simp only [DetailStorage.run, DetailStorage.apply, DetailStorage.getDetail,
          DetailOp.puts, Option.toList, List.nil_append]
        exact ih _
      | cons d rest =>
        simp only [DetailStorage.run, DetailStorage.apply, DetailStorage.getDetail,
          DetailOp.puts, Option.toList, List.singleton_append, List.cons_append]
        exact congrArg (List.cons d) (ih ⟨C, rest⟩)

theorem ShovelStorage.run_perm (ops : List ShovelOp) :
    ∀ s : ShovelStorage,
      List.Perm ((s.run ops).2 ++ (s.run ops).1.m_shovels) (s.m_shovels ++ ShovelOp.puts ops) := by
  induction ops with
  | nil => intro s; simp [ShovelStorage.run, ShovelOp.puts]
  | cons op ops ih =>
    intro s
    cases op with
    | add x =>
      simp only [ShovelStorage.run, ShovelStorage.apply, ShovelOp.puts, Option.toList,
        List.nil_append]
      refine (ih _).trans ?_
      simp [ShovelStorage.addShovel]
    | get =>
      obtain ⟨C, l⟩ := s
      rcases List.eq_nil_or_concat l with h | ⟨l1, x, h⟩
      · subst h
        simp only [ShovelStorage.run, ShovelStorage.apply, ShovelStorage.getShovel_nil,
          ShovelOp.puts, Option.toList, List.nil_append]
        exact ih _
      · rw [List.concat_eq_append] at h
        subst h
        simp only [ShovelStorage.run, ShovelStorage.apply, ShovelStorage.getShovel_append,
          ShovelOp.puts, Option.toList, List.singleton_append]
        have h1 := ih ⟨C, l1⟩
        have h2 : List.Perm (x :: (l1 ++ ShovelOp.puts ops)) (l1 ++ [x] ++ ShovelOp.puts ops) := by
          rw [List.append_assoc]
          exact (List.perm_middle).symm
        exact (List.Perm.cons x h1).trans h2

theorem ShovelStorage.run_sublist (ops : List ShovelOp) :
    ∀ s : ShovelStorage,
      List.Sublist (s.run ops).1.m_shovels (s.m_shovels ++ ShovelOp.puts ops) := by
  induction ops with
  | nil => intro s; simp [ShovelStorage.run, ShovelOp.puts]
  | cons op ops ih =>
    intro s
    cases op with
    | add x =>
      simp only [ShovelStorage.run, ShovelStorage.apply, ShovelOp.puts]
      have h1 := ih (s.addShovel x)
      simpa [ShovelStorage.addShovel] using h1
    | get =>
      obtain ⟨C, l⟩ := s
      rcases List.eq_nil_or_concat l with h | ⟨l1, x, h⟩
      · subst h
        simp only [ShovelStorage.run, ShovelStorage.apply, ShovelStorage.getShovel_nil,
          ShovelOp.puts]
        exact ih _
      · rw [List.concat_eq_append] at h
        subst h
        simp only [ShovelStorage.run, ShovelStorage.apply, ShovelStorage.getShovel_append,
          ShovelOp.puts]
        have h1 := ih ⟨C, l1⟩
        refine h1.trans ?_
        exact List.Sublist.append (List.sublist_append_left l1 [x]) (List.Sublist.refl _)

/-! ## Claims about the two storages -/

/-- C1, as stated, fails: a `DetailStorage` and a `ShovelStorage` of capacity 1
that start empty hold two items after two puts, because `addDetail` and
`addShovel` never consult the capacity. -/
theorem C1_capacity_exceeded_by_unchecked_puts :
    ¬ ((((DetailStorage.new 1).run
          [DetailOp.add ⟨1⟩, DetailOp.add ⟨2⟩]).1.m_details.length : Int) ≤ 1) ∧
    ¬ ((((ShovelStorage.new 1).run
          [ShovelOp.add ⟨1, ⟨1⟩, ⟨2⟩⟩, ShovelOp.add ⟨2, ⟨3⟩, ⟨4⟩⟩]).1.m_shovels.length : Int) ≤ 1) := by
  decide

/-- C1, amended: for a buffer (DetailStorage or ShovelStorage) of capacity
`C > 0` that starts empty and any finite sequence of puts and takes in which
every put is applied while `isFull` is false, the number of stored items after
each operation (after every prefix of the sequence) is at most `C` and not
negative. -/
theorem C1_size_le_capacity_when_puts_find_room (C : Int) (hC : 0 < C)
    (dops : List DetailOp) (sops : List ShovelOp)
    (hd : (DetailStorage.new C).putsFindRoom dops = true)
    (hs : (ShovelStorage.new C).putsFindRoom sops = true) (k : Nat) :
    (0 ≤ (((DetailStorage.new C).run (dops.take k)).1.m_details.length : Int) ∧
      (((DetailStorage.new C).run (dops.take k)).1.m_details.length : Int) ≤ C) ∧
    (0 ≤ (((ShovelStorage.new C).run (sops.take k)).1.m_shovels.length : Int) ∧
      (((ShovelStorage.new C).run (sops.take k)).1.m_shovels.length : Int) ≤ C) := by
  refine ⟨⟨Int.natCast_nonneg _, ?_⟩, ⟨Int.natCast_nonneg _, ?_⟩⟩
  · exact DetailStorage.detail_run_room_size dops (DetailStorage.new C) k (le_of_lt hC)
      (by simpa [DetailStorage.new] using le_of_lt hC) hd
  · exact ShovelStorage.shovel_run_room_size sops (ShovelStorage.new C) k (le_of_lt hC)
      (by simpa [ShovelStorage.new] using le_of_lt hC) hs

/-- C1, amended, at capacity 2: two puts, a take and a third put, each put
finding room; after all four operations each buffer holds 2 items. -/
theorem C1_size_le_capacity_when_puts_find_room_witness :
    (0 ≤ (((DetailStorage.new 2).run (List.take 4
        [DetailOp.add ⟨1⟩, DetailOp.add ⟨2⟩, DetailOp.get, DetailOp.add ⟨3⟩])).1.m_details.length
          : Int) ∧
      (((DetailStorage.new 2).run (List.take 4
        [DetailOp.add ⟨1⟩, DetailOp.add ⟨2⟩, DetailOp.get, DetailOp.add ⟨3⟩])).1.m_details.length
          : Int) ≤ 2) ∧
    (0 ≤ (((ShovelStorage.new 2).run (List.take 4
        [ShovelOp.add ⟨1, ⟨1⟩, ⟨2⟩⟩, ShovelOp.add ⟨2, ⟨3⟩, ⟨4⟩⟩, ShovelOp.get,
          ShovelOp.add ⟨3, ⟨5⟩, ⟨6⟩⟩])).1.m_shovels.length : Int) ∧
      (((ShovelStorage.new 2).run (List.take 4
        [ShovelOp.add ⟨1, ⟨1⟩, ⟨2⟩⟩, ShovelOp.add ⟨2, ⟨3⟩, ⟨4⟩⟩, ShovelOp.get,
          ShovelOp.add ⟨3, ⟨5⟩, ⟨6⟩⟩])).1.m_shovels.length : Int) ≤ 2) :=
  C1_size_le_capacity_when_puts_find_room 2 (by decide)
    [DetailOp.add ⟨1⟩, DetailOp.add ⟨2⟩, DetailOp.get, DetailOp.add ⟨3⟩]
    [ShovelOp.add ⟨1, ⟨1⟩, ⟨2⟩⟩, ShovelOp.add ⟨2, ⟨3⟩, ⟨4⟩⟩, ShovelOp.get,
      ShovelOp.add ⟨3, ⟨5⟩, ⟨6⟩⟩]
    (by decide) (by decide) 4

/-- C3: `DetailStorage` is FIFO. For every sequence of `addDetail` and
`getDetail` calls on a storage that starts empty, the details returned so far
followed by the details still stored are exactly the details added, in the
order they were added (from any starting content: the starting content
followed by the details added); `getDetail` on a non-empty storage returns the front
(earliest added) detail and leaves the rest in order; `addDetail` appends at
the back; and after `addDetail(A)`, `addDetail(B)` the first `getDetail`
returns `A` and the next returns `B`. -/
theorem C3_detail_storage_is_fifo (C : Int) (ops : List DetailOp) (A B : Detail) :
    (((DetailStorage.new C).run ops).2 ++ ((DetailStorage.new C).run ops).1.m_details
        = DetailOp.puts ops) ∧
    (∀ s : DetailStorage, (s.run ops).2 ++ (s.run ops).1.m_details
        = s.m_details ++ DetailOp.puts ops) ∧
    (∀ (d : Detail) (rest : List Detail),
        DetailStorage.getDetail ⟨C, d :: rest⟩ = some (d, ⟨C, rest⟩)) ∧
    (∀ (s : DetailStorage) (d : Detail), (s.addDetail d).m_details = s.m_details ++ [d]) ∧
    ((DetailStorage.new C).run
        [DetailOp.add A, DetailOp.add B, DetailOp.get, DetailOp.get]).2 = [A, B] := by
  refine ⟨?_, ?_, ?_, ?_, ?_⟩
  · simpa [DetailStorage.new] using DetailStorage.run_order ops (DetailStorage.new C)
  · exact DetailStorage.run_order ops
  · intro d rest; rfl
  · intro s d; rfl
  · rfl

/-- C4, as stated, fails: after `addShovel(A)`, `addShovel(B)` the first
`getShovel` returns `B`, not `A`, and the next returns `A`. -/
theorem C4_shovel_storage_not_fifo :
    ((ShovelStorage.new 100).run
        [ShovelOp.add ⟨1, ⟨1⟩, ⟨2⟩⟩, ShovelOp.add ⟨2, ⟨3⟩, ⟨4⟩⟩, ShovelOp.get, ShovelOp.get]).2
      = [⟨2, ⟨3⟩, ⟨4⟩⟩, ⟨1, ⟨1⟩, ⟨2⟩⟩] ∧
    ((ShovelStorage.new 100).run
        [ShovelOp.add ⟨1, ⟨1⟩, ⟨2⟩⟩, ShovelOp.add ⟨2, ⟨3⟩, ⟨4⟩⟩, ShovelOp.get, ShovelOp.get]).2
      ≠ [⟨1, ⟨1⟩, ⟨2⟩⟩, ⟨2, ⟨3⟩, ⟨4⟩⟩] := by
  decide

/-- C4, amended: `ShovelStorage` is LIFO. `getShovel` on a non-empty storage
returns the shovel at the back, i.e. the one added most recently among those
still stored, and leaves the others in order; `getShovel` right after
`addShovel x` returns `x` and restores the storage; for every sequence of calls
from an empty storage the stored shovels are a subsequence of the added ones in
the order added; and after `addShovel(A)`, `addShovel(B)` the first `getShovel`
returns `B` and the next returns `A`. -/
theorem C4_shovel_storage_is_lifo (C : Int) (ops : List ShovelOp) (A B : Shovel) :
    (∀ (l : List Shovel) (x : Shovel),
        ShovelStorage.getShovel ⟨C, l ++ [x]⟩ = some (x, ⟨C, l⟩)) ∧
    (∀ (s : ShovelStorage) (x : Shovel), (s.addShovel x).getShovel = some (x, s)) ∧
    List.Sublist ((ShovelStorage.new C).run ops).1.m_shovels (ShovelOp.puts ops) ∧
    ((ShovelStorage.new C).run
        [ShovelOp.add A, ShovelOp.add B, ShovelOp.get, ShovelOp.get]).2 = [B, A] := by
  refine ⟨?_, ?_, ?_, ?_⟩
  · intro l x; exact ShovelStorage.getShovel_append C l x
  · intro s x
    obtain ⟨C1, l⟩ := s
    exact ShovelStorage.getShovel_append C1 l x
  · simpa [ShovelStorage.new] using ShovelStorage.run_sublist ops (ShovelStorage.new C)
  · simp [ShovelStorage.run, ShovelStorage.apply, ShovelStorage.new, ShovelStorage.addShovel,
      ShovelStorage.getShovel]

/-- C5: no loss and no duplication. For every finite sequence of puts and
takes on a `DetailStorage` or a `ShovelStorage` that starts empty (a take on an
empty buffer does not return), the multiset of the items put equals the
multiset of the items returned by the takes plus the multiset of the items
still stored; hence every item taken was put before, and no item is taken more
often than it was put. -/
theorem C5_no_loss_no_duplication (C : Int) (dops : List DetailOp) (sops : List ShovelOp) :
    ((DetailOp.puts dops : Multiset Detail)
        = (((DetailStorage.new C).run dops).2 : Multiset Detail)
          + (((DetailStorage.new C).run dops).1.m_details : Multiset Detail)) ∧
    ((ShovelOp.puts sops : Multiset Shovel)
        = (((ShovelStorage.new C).run sops).2 : Multiset Shovel)
          + (((ShovelStorage.new C).run sops).1.m_shovels : Multiset Shovel)) ∧
    (∀ d : Detail, List.count d ((DetailStorage.new C).run dops).2
        ≤ List.count d (DetailOp.puts dops)) ∧
    (∀ x : Shovel, List.count x ((ShovelStorage.new C).run sops).2
        ≤ List.count x (ShovelOp.puts sops)) ∧
    (∀ d : Detail, d ∈ ((DetailStorage.new C).run dops).2 → d ∈ DetailOp.puts dops) ∧
    (∀ x : Shovel, x ∈ ((ShovelStorage.new C).run sops).2 → x ∈ ShovelOp.puts sops) := by
  have hd := DetailStorage.run_order dops (DetailStorage.new C)
  have hs := ShovelStorage.run_perm sops (ShovelStorage.new C)
  simp only [DetailStorage.new, ShovelStorage.new, List.nil_append] at hd hs
  simp only [DetailStorage.new, ShovelStorage.new]
  refine ⟨?_, ?_, ?_, ?_, ?_, ?_⟩
  · rw [← hd]; simp
  · rw [Multiset.coe_add, Multiset.coe_eq_coe]; exact hs.symm
  · intro d; rw [← hd, List.count_append]; omega
  · intro x; rw [← hs.count_eq, List.count_append]; omega
  · intro d h; rw [← hd]; exact List.mem_append_left _ h
  · intro x h; exact hs.subset (List.mem_append_left _ h)

/-! ## Supplier: capacity and ids -/

theorem DetailSupplier.step_capacity (s : DetailStorage) (c : Int) :
    (DetailSupplier.step s c).1.m_maxCapacity = s.m_maxCapacity := by
  unfold DetailSupplier.step
  split <;> rfl

theorem DetailSupplier.step_length_le (s : DetailStorage) (c : Int)
    (h0 : 0 ≤ s.m_maxCapacity) (hs : (s.m_details.length : Int) ≤ s.m_maxCapacity) :
    ((DetailSupplier.step s c).1.m_details.length : Int) ≤ s.m_maxCapacity := by
  unfold DetailSupplier.step
  split
  · exact hs
  · rename_i hfull
    have hroom := DetailStorage.detail_not_full_room s h0 (by simpa using hfull)
    simp only [DetailStorage.addDetail, List.length_append, List.length_singleton]
    push_cast
    omega

theorem SupplyEvent.event_apply_capacity (s : DetailStorage) (c : Int) (e : SupplyEvent) :
    (SupplyEvent.apply s c e).1.m_maxCapacity = s.m_maxCapacity := by
  cases e with
  | supply => exact DetailSupplier.step_capacity s c
  | get => exact DetailStorage.detail_apply_capacity s DetailOp.get

theorem SupplyEvent.run_size (es : List SupplyEvent) :
    ∀ (s : DetailStorage) (c : Int) (k : Nat), 0 ≤ s.m_maxCapacity →
      (s.m_details.length : Int) ≤ s.m_maxCapacity →
      (((SupplyEvent.run s c (es.take k)).1.m_details.length : Int) ≤ s.m_maxCapacity) := by
  induction es with
  | nil => intro s c k _ hs; simpa [SupplyEvent.run] using hs
  | cons e es ih =>
    intro s c k h0 hs
    cases k with
    | zero => simpa [SupplyEvent.run] using hs
    | succ k =>
      simp only [List.take_succ_cons, SupplyEvent.run]
      have hcap := SupplyEvent.event_apply_capacity s c e
      rw [← hcap]
      apply ih
      · rw [hcap]; exact h0
      · rw [hcap]
        cases e with
        | supply => exact DetailSupplier.step_length_le s c h0 hs
        | get =>
          have := DetailStorage.detail_apply_get_length_le s
          simp only [SupplyEvent.apply]
          omega

theorem DetailSupplier.createMany_spec (k : Nat) :
    ∀ c : Int, -2147483648 ≤ c → c + k ≤ INT_MAX →
      (DetailSupplier.createMany k c).2 = c + k ∧
      ∀ d ∈ (DetailSupplier.createMany k c).1, c ≤ d.m_id ∧ d.m_id < c + k := by
  induction k with
  | zero => intro c _ _; simp [DetailSupplier.createMany]
  | succ k ih =>
    intro c h0 h1
    have hstep : toInt32 (c + 1) = c + 1 :=
      toInt32_eq_self (c + 1) (by omega) (by push_cast at h1; omega)
    have hih := ih (c + 1) (by omega) (by push_cast at h1; omega)
    simp only [DetailSupplier.createMany, DetailSupplier.createDetail, postIncrement, hstep]
    refine ⟨by rw [hih.1]; push_cast; omega, ?_⟩
    intro d hd
    rcases List.mem_cons.mp hd with h | h
    · subst h
      simp only
      push_cast
      omega
    · have := hih.2 d h
      push_cast
      omega

/-! ## Claims about the supplier and the thread pool -/

/-- C7: one iteration of `DetailSupplier::start` on a storage of capacity
`C > 0` (an `int`), for every content `l` and every counter value `c`: when the
storage holds at least `C` details the storage and the counter are unchanged;
otherwise exactly one detail with id `c` is appended at the back, the other
details are unchanged and the counter advances. When `c` is the counter reached
by `k` earlier `createDetail` calls since program start (counter 1), the id of
the appended detail is strictly greater than the id of each of those `k`
details. -/
theorem C7_supplier_step (C : Int) (hC : 0 < C) (hmax : C ≤ INT_MAX) (l : List Detail) (c : Int)
    (k : Nat) (hk : (k : Int) < INT_MAX) :
    (C ≤ (l.length : Int) → DetailSupplier.step ⟨C, l⟩ c = (⟨C, l⟩, c)) ∧
    ((l.length : Int) < C →
      DetailSupplier.step ⟨C, l⟩ c = (⟨C, l ++ [⟨c⟩]⟩, toInt32 (c + 1))) ∧
    ((l.length : Int) < C → ∃ d : Detail,
      (DetailSupplier.step ⟨C, l⟩ (DetailSupplier.createMany k 1).2).1.m_details = l ++ [d] ∧
      ∀ e ∈ (DetailSupplier.createMany k 1).1, e.m_id < d.m_id) := by
  have hsz := toSizeT_eq_self C (le_of_lt hC) hmax
  have hfull : DetailStorage.isFull ⟨C, l⟩ = true ↔ C ≤ (l.length : Int) := by
    simp only [DetailStorage.isFull, decide_eq_true_eq]
    omega
  have hnot : (l.length : Int) < C → DetailStorage.isFull ⟨C, l⟩ = false := by
    intro h
    cases hb : DetailStorage.isFull ⟨C, l⟩ with
    | false => rfl
    | true => have := hfull.mp hb; omega
  refine ⟨?_, ?_, ?_⟩
  · intro h
    simp [DetailSupplier.step, hfull.mpr h]
  · intro h
    simp [DetailSupplier.step, hnot h, DetailStorage.addDetail, DetailSupplier.createDetail,
      postIncrement]
  · intro h
    have hspec := DetailSupplier.createMany_spec k 1 (by omega) (by unfold INT_MAX at *; omega)
    refine ⟨⟨(DetailSupplier.createMany k 1).2⟩, ?_, ?_⟩
    · simp [DetailSupplier.step, hnot h, DetailStorage.addDetail, DetailSupplier.createDetail,
        postIncrement]
    · intro e he
      have := (hspec.2 e he).2
      simp only [hspec.1]
      exact this

/-- C7 at capacity 2 with one stored detail, counter 3 reached by 2 earlier
creations: the detail with id 3 is appended. -/
theorem C7_supplier_step_witness :
    ((2 : Int) ≤ (([⟨1⟩] : List Detail).length : Int) →
      DetailSupplier.step ⟨2, [⟨1⟩]⟩ 3 = (⟨2, [⟨1⟩]⟩, 3)) ∧
    (((([⟨1⟩] : List Detail).length : Int) < 2) →
      DetailSupplier.step ⟨2, [⟨1⟩]⟩ 3 = (⟨2, [⟨1⟩] ++ [⟨3⟩]⟩, toInt32 (3 + 1))) ∧
    (((([⟨1⟩] : List Detail).length : Int) < 2) → ∃ d : Detail,
      (DetailSupplier.step ⟨2, [⟨1⟩]⟩ (DetailSupplier.createMany 2 1).2).1.m_details
        = [⟨1⟩] ++ [d] ∧
      ∀ e ∈ (DetailSupplier.createMany 2 1).1, e.m_id < d.m_id) :=
  C7_supplier_step 2 (by decide) (by decide) [⟨1⟩] 3 2 (by decide)

/-- C8, as stated, fails: on a pool whose shutdown has begun (`m_stop` true)
`enqueue` succeeds and the task is in the queue afterwards; it does not fail
with `PoolClosed`. -/
theorem C8_enqueue_after_shutdown_succeeds :
    ThreadPool.enqueue (ThreadPool.shutdown (ThreadPool.new : ThreadPool Nat)) 7
      = Except.ok ⟨[7], true⟩ ∧
    ThreadPool.enqueue (ThreadPool.shutdown (ThreadPool.new : ThreadPool Nat)) 7
      ≠ Except.error PoolError.PoolClosed := by
  constructor
  · rfl
  · intro h
    cases h

/-- C8, amended: `enqueue` never fails. For every pool state, whether or not
shutdown has begun, `enqueue` succeeds, appends the task at the back of the
queue and leaves `m_stop` as it was; in particular it does so when `m_stop` is
true, and the next tasks a worker pops are the earlier ones first. -/
theorem C8_enqueue_always_appends (Task : Type) (p : ThreadPool Task) (t : Task) :
    ThreadPool.enqueue p t = Except.ok ⟨p.m_tasks ++ [t], p.m_stop⟩ ∧
    ThreadPool.enqueue p t ≠ Except.error PoolError.PoolClosed ∧
    ThreadPool.enqueue (ThreadPool.shutdown p) t = Except.ok ⟨p.m_tasks ++ [t], true⟩ := by
  refine ⟨rfl, ?_, rfl⟩
  intro h
  cases h

/-- C10: for a `DetailStorage` of capacity `C ≥ 0` that starts empty and every
finite sequence of supplier iterations (`isFull` check, then `addDetail`, each
iteration running as a whole between the other events) and `getDetail` calls,
from any counter value, the number of stored details after
each event (after every prefix of the sequence) is at most `C`; `addDetail`
itself adds the detail whatever the capacity is, full or not. -/
theorem C10_supplier_check_keeps_capacity (C : Int) (hC : 0 ≤ C) (c : Int)
    (es : List SupplyEvent) (k : Nat) :
    (((SupplyEvent.run (DetailStorage.new C) c (es.take k)).1.m_details.length : Int) ≤ C) ∧
    (∀ (s : DetailStorage) (d : Detail),
      (s.addDetail d).m_details.length = s.m_details.length + 1) := by
  constructor
  · exact SupplyEvent.run_size es (DetailStorage.new C) c k hC
      (by simpa [DetailStorage.new] using hC)
  · intro s d
    simp [DetailStorage.addDetail]

/-- C10 at capacity 1: three supplier iterations, a take and another
iteration leave one detail in the storage. -/
theorem C10_supplier_check_keeps_capacity_witness :
    (((SupplyEvent.run (DetailStorage.new 1) 1
        (List.take 5 [SupplyEvent.supply, SupplyEvent.supply, SupplyEvent.supply,
          SupplyEvent.get, SupplyEvent.supply])).1.m_details.length : Int) ≤ 1) ∧
    (∀ (s : DetailStorage) (d : Detail),
      (s.addDetail d).m_details.length = s.m_details.length + 1) :=
  C10_supplier_check_keeps_capacity 1 (by decide) 1
    [SupplyEvent.supply, SupplyEvent.supply, SupplyEvent.supply, SupplyEvent.get,
      SupplyEvent.supply] 5

/-! ## Shovel creation: ids -/

theorem ShovelAssembler.step_some (w w1 : Factory) (x : Shovel)
    (h : ShovelAssembler.step w = some (x, w1)) :
    x.m_id = w.assemblerNextId ∧ w1.assemblerNextId = toInt32 (w.assemblerNextId + 1) ∧
      w1.controllerNextId = w.controllerNextId := by
  unfold ShovelAssembler.step at h
  split at h
  · cases h
  · split at h
    · cases h
    · simp only [ShovelAssembler.getNextShovelId, postIncrement, Option.some.injEq,
        Prod.mk.injEq] at h
      obtain ⟨hx, hw⟩ := h
      subst hx
      subst hw
      exact ⟨rfl, rfl, rfl⟩

theorem ShovelStorageController.createShovel_some (w w1 : Factory) (x : Shovel)
    (h : ShovelStorageController.createShovel w = some (x, w1)) :
    x.m_id = w.controllerNextId ∧ w1.controllerNextId = toInt32 (w.controllerNextId + 1) ∧
      w1.assemblerNextId = w.assemblerNextId := by
  unfold ShovelStorageController.createShovel at h
  split at h
  · cases h
  · split at h
    · cases h
    · simp only [ShovelStorageController.getNextShovelId, postIncrement, Option.some.injEq,
        Prod.mk.injEq] at h
      obtain ⟨hx, hw⟩ := h
      subst hx
      subst hw
      exact ⟨rfl, rfl, rfl⟩

theorem Creator.idsOf_cons_same (c : Creator) (x : Shovel) (made : List (Creator × Shovel)) :
    Creator.idsOf c ((c, x) :: made) = x.m_id :: Creator.idsOf c made := by
  simp [Creator.idsOf]

theorem Creator.idsOf_cons_other (c c1 : Creator) (x : Shovel) (made : List (Creator × Shovel))
    (h : c1 ≠ c) : Creator.idsOf c ((c1, x) :: made) = Creator.idsOf c made := by
  simp [Creator.idsOf, h]

theorem Creator.run_ids (cs : List Creator) :
    ∀ w : Factory,
      -2147483648 ≤ w.assemblerNextId → w.assemblerNextId + cs.length ≤ INT_MAX →
      -2147483648 ≤ w.controllerNextId → w.controllerNextId + cs.length ≤ INT_MAX →
      (List.Pairwise (fun a b => a < b) (Creator.idsOf Creator.assembler (Creator.run w cs)) ∧
        ∀ i ∈ Creator.idsOf Creator.assembler (Creator.run w cs), w.assemblerNextId ≤ i) ∧
      (List.Pairwise (fun a b => a < b) (Creator.idsOf Creator.controller (Creator.run w cs)) ∧
        ∀ i ∈ Creator.idsOf Creator.controller (Creator.run w cs), w.controllerNextId ≤ i) := by
  induction cs with
  | nil =>
    intro w _ _ _ _
    simp [Creator.run, Creator.idsOf]
  | cons c cs ih =>
    intro w ha0 ha1 hc0 hc1
    simp only [List.length_cons] at ha1 hc1
    push_cast at ha1 hc1
    cases hcr : Creator.create w c with
    | none =>
      simp only [Creator.run, hcr]
      exact ih w ha0 (by omega) hc0 (by omega)
    | some r =>
      obtain ⟨x, w1⟩ := r
      simp only [Creator.run, hcr]
      cases c with
      | assembler =>
        obtain ⟨hx, hwa, hwc⟩ := ShovelAssembler.step_some w w1 x hcr
        rw [toInt32_eq_self _ (by omega) (by omega)] at hwa
        have hih := ih w1 (by omega) (by omega) (by omega) (by omega)
        rw [Creator.idsOf_cons_same, Creator.idsOf_cons_other _ _ _ _ (by decide)]
        refine ⟨⟨List.pairwise_cons.mpr ⟨?_, hih.1.1⟩, ?_⟩, ⟨hih.2.1, ?_⟩⟩
        · intro i hi
          have := hih.1.2 i hi
          omega
        · intro i hi
          rcases List.mem_cons.mp hi with h | h
          · omega
          · have := hih.1.2 i h
            omega
        · intro i hi
          have := hih.2.2 i hi
          omega
      | controller =>
        obtain ⟨hx, hwc, hwa⟩ := ShovelStorageController.createShovel_some w w1 x hcr
        rw [toInt32_eq_self _ (by omega) (by omega)] at hwc
        have hih := ih w1 (by omega) (by omega) (by omega) (by omega)
        rw [Creator.idsOf_cons_same, Creator.idsOf_cons_other _ _ _ _ (by decide)]
        refine ⟨⟨hih.1.1, ?_⟩, ⟨List.pairwise_cons.mpr ⟨?_, hih.2.1⟩, ?_⟩⟩
        · intro i hi
          have := hih.1.2 i hi
          omega
        · intro i hi
          have := hih.2.2 i hi
          omega
        · intro i hi
          rcases List.mem_cons.mp hi with h | h
          · omega
          · have := hih.2.2 i h
            omega

/-! ## Dealer controller: the replenishment step -/

theorem ShovelStorageController.numShovelsToAdd_of_lt (c : ShovelStorageController)
    (st : ShovelStorage) (h0 : -2147483648 ≤ c.m_maxShovels) (h1 : c.m_maxShovels ≤ INT_MAX)
    (hlt : (st.m_shovels.length : Int) < c.m_maxShovels) :
    ShovelStorageController.numShovelsToAdd c st = c.m_maxShovels - st.m_shovels.length := by
  unfold ShovelStorageController.numShovelsToAdd ShovelStorage.getShovels toSizeT toInt32
  unfold INT_MAX at h1
  omega

theorem ShovelStorageController.numShovelsToAdd_nonpos (c : ShovelStorageController)
    (st : ShovelStorage) (h0 : -2147483648 ≤ c.m_maxShovels) (h1 : c.m_maxShovels ≤ INT_MAX)
    (hge : c.m_maxShovels ≤ (st.m_shovels.length : Int))
    (hn : (st.m_shovels.length : Int) ≤ c.m_maxShovels + 2147483648) :
    ShovelStorageController.numShovelsToAdd c st ≤ 0 := by
  unfold ShovelStorageController.numShovelsToAdd ShovelStorage.getShovels toSizeT toInt32
  unfold INT_MAX at h1
  omega

theorem ShovelStorageController.step_of_not_full (c : ShovelStorageController) (w : Factory)
    (C : Int) (l : List Shovel) (x : Shovel) (hw : w.shovels = ⟨C, l ++ [x]⟩)
    (hf : ShovelStorage.isFull ⟨C, l⟩ = false) :
    ShovelStorageController.step c w = some (x, [], { w with shovels := ⟨C, l⟩ }) := by
  unfold ShovelStorageController.step
  rw [hw, ShovelStorage.getShovel_append]
  simp [ShovelStorage.isEmpty, hf]

theorem ShovelStorageController.step_of_full (c : ShovelStorageController) (w : Factory)
    (C : Int) (l : List Shovel) (x : Shovel) (hw : w.shovels = ⟨C, l ++ [x]⟩)
    (hf : ShovelStorage.isFull ⟨C, l⟩ = true) :
    ShovelStorageController.step c w =
      match ShovelStorageController.produce
          (ShovelStorageController.numShovelsToAdd c ⟨C, l⟩).toNat { w with shovels := ⟨C, l⟩ } with
      | none => none
      | some (made, w2) => some (x, made, w2) := by
  unfold ShovelStorageController.step
  rw [hw, ShovelStorage.getShovel_append]
  simp [ShovelStorage.isEmpty, hf]

theorem ShovelStorageController.produce_enough (k : Nat) :
    ∀ w : Factory, k ≤ w.handles.m_details.length → k ≤ w.blades.m_details.length →
      ∃ (made : List Shovel) (w2 : Factory),
        ShovelStorageController.produce k w = some (made, w2) ∧ made.length = k ∧
        w2.shovels = ⟨w.shovels.m_maxCapacity, w.shovels.m_shovels ++ made⟩ ∧
        w2.handles = ⟨w.handles.m_maxCapacity, w.handles.m_details.drop k⟩ ∧
        w2.blades = ⟨w.blades.m_maxCapacity, w.blades.m_details.drop k⟩ := by
  induction k with
  | zero =>
    intro w _ _
    exact ⟨[], w, rfl, rfl, by simp, by simp, by simp⟩
  | succ k ih =>
    intro w hh hb
    obtain ⟨sh, hs, bl, cn, an, dn⟩ := w
    obtain ⟨hC, hl⟩ := hs
    obtain ⟨bC, bll⟩ := bl
    cases hl with
    | nil => simp at hh
    | cons h hrest =>
      cases bll with
      | nil => simp at hb
      | cons b brest =>
        simp only [List.length_cons, Nat.add_le_add_iff_right] at hh hb
        obtain ⟨made, w2, hp, hlen, hsh, hha, hbl⟩ :=
          ih ⟨sh.addShovel ⟨cn, h, b⟩, ⟨hC, hrest⟩, ⟨bC, brest⟩, toInt32 (cn + 1), an, dn⟩ hh hb
        refine ⟨⟨cn, h, b⟩ :: made, w2, ?_, by simp [hlen], ?_, ?_, ?_⟩
        · simp only [ShovelStorageController.produce, ShovelStorageController.createShovel,
            DetailStorage.getDetail, ShovelStorageController.getNextShovelId, postIncrement]
          rw [hp]
        · rw [hsh]
          simp [ShovelStorage.addShovel]
        · rw [hha]; simp
        · rw [hbl]; simp

/-! ## Claims about shovel ids and replenishment -/

/-- C6, as stated, fails: the assembler and the controller each count from
their own `static int nextId = 1`, so the first shovel made by an assembler and
the first shovel made by a controller are two distinct shovels that both have
id 1; the ids in creation order are `[1, 1]`, not strictly increasing. -/
theorem C6_assembler_and_controller_ids_collide :
    Creator.run ⟨⟨100, []⟩, ⟨100, [⟨1⟩, ⟨3⟩]⟩, ⟨100, [⟨2⟩, ⟨4⟩]⟩, 1, 1, 1⟩
        [Creator.assembler, Creator.controller]
      = [(Creator.assembler, ⟨1, ⟨1⟩, ⟨2⟩⟩), (Creator.controller, ⟨1, ⟨3⟩, ⟨4⟩⟩)] ∧
    (⟨1, ⟨1⟩, ⟨2⟩⟩ : Shovel) ≠ ⟨1, ⟨3⟩, ⟨4⟩⟩ ∧
    ¬ List.Pairwise (fun a b => a < b)
      ((Creator.run ⟨⟨100, []⟩, ⟨100, [⟨1⟩, ⟨3⟩]⟩, ⟨100, [⟨2⟩, ⟨4⟩]⟩, 1, 1, 1⟩
        [Creator.assembler, Creator.controller]).map (fun p => p.2.m_id)) := by
  decide

/-- C6, amended: within each id scope ids are strictly increasing and unique.
For every sequence of fewer than `INT_MAX` shovel creations from program start
(both counters 1), whatever the storages hold, the ids of the shovels made by
assemblers are strictly increasing in creation order, hence pairwise different,
and so are the ids of the shovels made by controllers. -/
theorem C6_ids_increase_within_each_creator (w : Factory) (cs : List Creator)
    (ha : w.assemblerNextId = 1) (hc : w.controllerNextId = 1)
    (hlen : (cs.length : Int) < INT_MAX) :
    List.Pairwise (fun a b => a < b) (Creator.idsOf Creator.assembler (Creator.run w cs)) ∧
    List.Pairwise (fun a b => a < b) (Creator.idsOf Creator.controller (Creator.run w cs)) ∧
    (Creator.idsOf Creator.assembler (Creator.run w cs)).Nodup ∧
    (Creator.idsOf Creator.controller (Creator.run w cs)).Nodup := by
  have h := Creator.run_ids cs w (by omega) (by unfold INT_MAX at *; omega) (by omega)
    (by unfold INT_MAX at *; omega)
  refine ⟨h.1.1, h.2.1, ?_, ?_⟩
  · exact h.1.1.imp (fun hab => ne_of_lt hab)
  · exact h.2.1.imp (fun hab => ne_of_lt hab)

/-- C6, amended, on three creations: assembler, controller, assembler. -/
theorem C6_ids_increase_within_each_creator_witness :
    List.Pairwise (fun a b => a < b) (Creator.idsOf Creator.assembler
      (Creator.run ⟨⟨100, []⟩, ⟨100, [⟨1⟩, ⟨3⟩, ⟨5⟩]⟩, ⟨100, [⟨2⟩, ⟨4⟩, ⟨6⟩]⟩, 1, 1, 7⟩
        [Creator.assembler, Creator.controller, Creator.assembler])) ∧
    List.Pairwise (fun a b => a < b) (Creator.idsOf Creator.controller
      (Creator.run ⟨⟨100, []⟩, ⟨100, [⟨1⟩, ⟨3⟩, ⟨5⟩]⟩, ⟨100, [⟨2⟩, ⟨4⟩, ⟨6⟩]⟩, 1, 1, 7⟩
        [Creator.assembler, Creator.controller, Creator.assembler])) ∧
    (Creator.idsOf Creator.assembler
      (Creator.run ⟨⟨100, []⟩, ⟨100, [⟨1⟩, ⟨3⟩, ⟨5⟩]⟩, ⟨100, [⟨2⟩, ⟨4⟩, ⟨6⟩]⟩, 1, 1, 7⟩
        [Creator.assembler, Creator.controller, Creator.assembler])).Nodup ∧
    (Creator.idsOf Creator.controller
      (Creator.run ⟨⟨100, []⟩, ⟨100, [⟨1⟩, ⟨3⟩, ⟨5⟩]⟩, ⟨100, [⟨2⟩, ⟨4⟩, ⟨6⟩]⟩, 1, 1, 7⟩
        [Creator.assembler, Creator.controller, Creator.assembler])).Nodup :=
  C6_ids_increase_within_each_creator
    ⟨⟨100, []⟩, ⟨100, [⟨1⟩, ⟨3⟩, ⟨5⟩]⟩, ⟨100, [⟨2⟩, ⟨4⟩, ⟨6⟩]⟩, 1, 1, 7⟩
    [Creator.assembler, Creator.controller, Creator.assembler] rfl rfl (by decide)

/-- C2, as stated, fails: with capacity 100 and target level 50, a dealer step
that removes one of 41 shovels leaves 40, the storage does not report full, and
no shovel is produced (not 10), although 10 handles and 10 blades are there. -/
theorem C2_no_replenishment_at_40_of_50 :
    ShovelStorageController.step ⟨50⟩
        ⟨⟨100, List.replicate 41 ⟨9, ⟨1⟩, ⟨2⟩⟩⟩, ⟨100, List.replicate 10 ⟨3⟩⟩,
          ⟨100, List.replicate 10 ⟨4⟩⟩, 1, 1, 1⟩
      = some (⟨9, ⟨1⟩, ⟨2⟩⟩, [],
          ⟨⟨100, List.replicate 40 ⟨9, ⟨1⟩, ⟨2⟩⟩⟩, ⟨100, List.replicate 10 ⟨3⟩⟩,
            ⟨100, List.replicate 10 ⟨4⟩⟩, 1, 1, 1⟩) ∧
    (([] : List Shovel).length : Int) ≠ 50 - 40 := by
  constructor
  · exact ShovelStorageController.step_of_not_full ⟨50⟩ _ 100
      (List.replicate 40 ⟨9, ⟨1⟩, ⟨2⟩⟩) ⟨9, ⟨1⟩, ⟨2⟩⟩ rfl (by decide)
  · decide

/-- C2, amended: a dealer step with target level `L = m_maxShovels` (an `int`)
that removes one shovel and leaves `n` shovels, `n ≤ L + 2^31`, with at least
`L - n` handles and blades available, completes; the number of new shovels
created and added back (behind the remaining ones) is `L - n` when the storage
reports full after the removal and `n < L`, and 0 otherwise; each new shovel
consumes one handle and one blade. -/
theorem C2_replenishment_only_when_full (c : ShovelStorageController) (w : Factory)
    (C : Int) (l : List Shovel) (x : Shovel) (hw : w.shovels = ⟨C, l ++ [x]⟩)
    (hL0 : -2147483648 ≤ c.m_maxShovels) (hL1 : c.m_maxShovels ≤ INT_MAX)
    (hn : (l.length : Int) ≤ c.m_maxShovels + 2147483648)
    (hh : c.m_maxShovels - (l.length : Int) ≤ (w.handles.m_details.length : Int))
    (hb : c.m_maxShovels - (l.length : Int) ≤ (w.blades.m_details.length : Int)) :
    ∃ (made : List Shovel) (w2 : Factory),
      ShovelStorageController.step c w = some (x, made, w2) ∧
      w2.shovels = ⟨C, l ++ made⟩ ∧
      (made.length : Int) =
        (if ShovelStorage.isFull ⟨C, l⟩ = true ∧ (l.length : Int) < c.m_maxShovels
          then c.m_maxShovels - (l.length : Int) else 0) ∧
      w2.handles.m_details = w.handles.m_details.drop made.length ∧
      w2.blades.m_details = w.blades.m_details.drop made.length := by
  cases hf : ShovelStorage.isFull ⟨C, l⟩ with
  | false =>
    refine ⟨[], { w with shovels := ⟨C, l⟩ }, ?_, by simp, by simp, by simp, by simp⟩
    exact ShovelStorageController.step_of_not_full c w C l x hw hf
  | true =>
    have hstep := ShovelStorageController.step_of_full c w C l x hw hf
    by_cases hlt : (l.length : Int) < c.m_maxShovels
    · have hnum := ShovelStorageController.numShovelsToAdd_of_lt c ⟨C, l⟩ hL0 hL1 hlt
      simp only at hnum
      obtain ⟨made, w2, hp, hlen, hsh, hha, hbl⟩ :=
        ShovelStorageController.produce_enough (c.m_maxShovels - (l.length : Int)).toNat
          { w with shovels := ⟨C, l⟩ } (by simp only; omega) (by simp only; omega)
      rw [hnum, hp] at hstep
      refine ⟨made, w2, hstep, by simpa using hsh, ?_, ?_, ?_⟩
      · rw [hlen]
        simp only [hlt, and_self, if_true]
        omega
      · rw [hha, hlen]
      · rw [hbl, hlen]
    · have hnum := ShovelStorageController.numShovelsToAdd_nonpos c ⟨C, l⟩ hL0 hL1
        (by simp only; omega) hn
      have hz : (ShovelStorageController.numShovelsToAdd c ⟨C, l⟩).toNat = 0 := by omega
      rw [hz] at hstep
      refine ⟨[], { w with shovels := ⟨C, l⟩ }, hstep, by simp, ?_, by simp, by simp⟩
      simp [hlt]

/-- C2, amended, at capacity 2 and target 3: the step removes one of three
shovels, the storage still reports full with 2 < 3, and one shovel is made. -/
theorem C2_replenishment_only_when_full_witness :
    ∃ (made : List Shovel) (w2 : Factory),
      ShovelStorageController.step ⟨3⟩
          ⟨⟨2, [⟨7, ⟨1⟩, ⟨2⟩⟩, ⟨8, ⟨3⟩, ⟨4⟩⟩] ++ [⟨9, ⟨5⟩, ⟨6⟩⟩]⟩, ⟨100, [⟨11⟩]⟩, ⟨100, [⟨12⟩]⟩,
            1, 1, 13⟩
        = some (⟨9, ⟨5⟩, ⟨6⟩⟩, made, w2) ∧
      w2.shovels = ⟨2, [⟨7, ⟨1⟩, ⟨2⟩⟩, ⟨8, ⟨3⟩, ⟨4⟩⟩] ++ made⟩ ∧
      (made.length : Int) =
        (if ShovelStorage.isFull ⟨2, [⟨7, ⟨1⟩, ⟨2⟩⟩, ⟨8, ⟨3⟩, ⟨4⟩⟩]⟩ = true ∧
            (([⟨7, ⟨1⟩, ⟨2⟩⟩, ⟨8, ⟨3⟩, ⟨4⟩⟩] : List Shovel).length : Int)
              < (⟨3⟩ : ShovelStorageController).m_maxShovels
          then (⟨3⟩ : ShovelStorageController).m_maxShovels
            - (([⟨7, ⟨1⟩, ⟨2⟩⟩, ⟨8, ⟨3⟩, ⟨4⟩⟩] : List Shovel).length : Int) else 0) ∧
      w2.handles.m_details = List.drop made.length [⟨11⟩] ∧
      w2.blades.m_details = List.drop made.length [⟨12⟩] :=
  C2_replenishment_only_when_full ⟨3⟩
    ⟨⟨2, [⟨7, ⟨1⟩, ⟨2⟩⟩, ⟨8, ⟨3⟩, ⟨4⟩⟩] ++ [⟨9, ⟨5⟩, ⟨6⟩⟩]⟩, ⟨100, [⟨11⟩]⟩, ⟨100, [⟨12⟩]⟩, 1, 1, 13⟩
    2 [⟨7, ⟨1⟩, ⟨2⟩⟩, ⟨8, ⟨3⟩, ⟨4⟩⟩] ⟨9, ⟨5⟩, ⟨6⟩⟩ rfl (by decide) (by decide) (by decide)
    (by decide) (by decide)

/-- C9, as stated, fails for a very large storage: with capacity 100, target
50 and `2^32 + 50` stored shovels, the step leaves `2^32 + 49`, the storage
reports full, the `size_t` difference `50 - (2^32 + 49)` narrows to the `int`
1, and one shovel is created from a handle and a blade. -/
theorem C9_replenishment_runs_at_huge_size :
    ShovelStorageController.numShovelsToAdd ⟨50⟩
        ⟨100, List.replicate 4294967345 ⟨9, ⟨1⟩, ⟨2⟩⟩⟩ = 1 ∧
    ShovelStorage.isFull ⟨100, List.replicate 4294967345 ⟨9, ⟨1⟩, ⟨2⟩⟩⟩ = true ∧
    ShovelStorageController.step ⟨50⟩
        ⟨⟨100, List.replicate 4294967345 ⟨9, ⟨1⟩, ⟨2⟩⟩ ++ [⟨9, ⟨1⟩, ⟨2⟩⟩]⟩, ⟨100, [⟨3⟩]⟩,
          ⟨100, [⟨4⟩]⟩, 1, 1, 5⟩
      = some (⟨9, ⟨1⟩, ⟨2⟩⟩, [⟨1, ⟨3⟩, ⟨4⟩⟩],
          ⟨⟨100, List.replicate 4294967345 ⟨9, ⟨1⟩, ⟨2⟩⟩ ++ [⟨1, ⟨3⟩, ⟨4⟩⟩]⟩, ⟨100, []⟩,
            ⟨100, []⟩, 2, 1, 5⟩) := by
  have hnum : ShovelStorageController.numShovelsToAdd ⟨50⟩
      ⟨100, List.replicate 4294967345 ⟨9, ⟨1⟩, ⟨2⟩⟩⟩ = 1 := by
    simp only [ShovelStorageController.numShovelsToAdd, ShovelStorage.getShovels,
      List.length_replicate]
    decide
  have hfull : ShovelStorage.isFull ⟨100, List.replicate 4294967345 ⟨9, ⟨1⟩, ⟨2⟩⟩⟩ = true := by
    simp only [ShovelStorage.isFull, List.length_replicate]
    decide
  refine ⟨hnum, hfull, ?_⟩
  rw [ShovelStorageController.step_of_full ⟨50⟩ _ 100
    (List.replicate 4294967345 ⟨9, ⟨1⟩, ⟨2⟩⟩) ⟨9, ⟨1⟩, ⟨2⟩⟩ rfl hfull, hnum]
  rfl

/-- C9, amended: for a dealer step on a non-empty `ShovelStorage` with
capacity `C` and target `L`, `0 ≤ L ≤ C ≤ INT_MAX`, that leaves at most
`L + 2^31` shovels, no shovel is created and no part is taken from the handle
or blade storage: the step only removes the shovel at the back (the most
recently added one) and changes nothing else; and whenever the storage reports
full the computed count `numShovelsToAdd` is `≤ 0`. -/
theorem C9_replenishment_dead_when_target_within_capacity (c : ShovelStorageController)
    (w : Factory) (C : Int) (l : List Shovel) (x : Shovel) (hw : w.shovels = ⟨C, l ++ [x]⟩)
    (hL0 : 0 ≤ c.m_maxShovels) (hLC : c.m_maxShovels ≤ C) (hC : C ≤ INT_MAX)
    (hn : (l.length : Int) ≤ c.m_maxShovels + 2147483648) :
    ShovelStorageController.step c w = some (x, [], { w with shovels := ⟨C, l⟩ }) ∧
    (ShovelStorage.isFull ⟨C, l⟩ = true →
      ShovelStorageController.numShovelsToAdd c ⟨C, l⟩ ≤ 0) := by
  have hnonpos : ShovelStorage.isFull ⟨C, l⟩ = true →
      ShovelStorageController.numShovelsToAdd c ⟨C, l⟩ ≤ 0 := by
    intro hf
    have hsz := toSizeT_eq_self C (le_trans hL0 hLC) hC
    simp only [ShovelStorage.isFull, decide_eq_true_eq] at hf
    exact ShovelStorageController.numShovelsToAdd_nonpos c ⟨C, l⟩ (by omega)
      (le_trans hLC hC) (by simp only; omega) hn
  refine ⟨?_, hnonpos⟩
  cases hf : ShovelStorage.isFull ⟨C, l⟩ with
  | false => exact ShovelStorageController.step_of_not_full c w C l x hw hf
  | true =>
    have hstep := ShovelStorageController.step_of_full c w C l x hw hf
    have hz : (ShovelStorageController.numShovelsToAdd c ⟨C, l⟩).toNat = 0 := by
      have := hnonpos hf
      omega
    rw [hz] at hstep
    exact hstep

/-- C9, amended, with the values of `main` (capacity 100, target 50) on a
storage of 101 shovels: the step removes the last one, the storage reports
full, and nothing is produced. -/
theorem C9_replenishment_dead_when_target_within_capacity_witness :
    ShovelStorageController.step ⟨50⟩
        ⟨⟨100, List.replicate 100 ⟨9, ⟨1⟩, ⟨2⟩⟩ ++ [⟨8, ⟨3⟩, ⟨4⟩⟩]⟩, ⟨100, [⟨5⟩]⟩, ⟨100, [⟨6⟩]⟩,
          1, 1, 7⟩
      = some (⟨8, ⟨3⟩, ⟨4⟩⟩, [],
          { (⟨⟨100, List.replicate 100 ⟨9, ⟨1⟩, ⟨2⟩⟩ ++ [⟨8, ⟨3⟩, ⟨4⟩⟩]⟩, ⟨100, [⟨5⟩]⟩,
              ⟨100, [⟨6⟩]⟩, 1, 1, 7⟩ : Factory) with
            shovels := ⟨100, List.replicate 100 ⟨9, ⟨1⟩, ⟨2⟩⟩⟩ }) ∧
    (ShovelStorage.isFull ⟨100, List.replicate 100 ⟨9, ⟨1⟩, ⟨2⟩⟩⟩ = true →
      ShovelStorageController.numShovelsToAdd ⟨50⟩ ⟨100, List.replicate 100 ⟨9, ⟨1⟩, ⟨2⟩⟩⟩ ≤ 0) :=
  C9_replenishment_dead_when_target_within_capacity ⟨50⟩
    ⟨⟨100, List.replicate 100 ⟨9, ⟨1⟩, ⟨2⟩⟩ ++ [⟨8, ⟨3⟩, ⟨4⟩⟩]⟩, ⟨100, [⟨5⟩]⟩, ⟨100, [⟨6⟩]⟩, 1, 1, 7⟩
    100 (List.replicate 100 ⟨9, ⟨1⟩, ⟨2⟩⟩) ⟨8, ⟨3⟩, ⟨4⟩⟩ rfl (by decide) (by decide) (by decide)
    (by simp only [List.length_replicate]; decide)

end ShovelFactory
